import Mathlib

/-!
Shallow embedding of the ZIP-archive reader (class ZipReader, file src/zip.ts).

Modelling conventions:
- the backing ArrayBuffer / DataView is a `List Nat` of byte values;
- `DataView.getUintN(offset, true)` (little-endian, bounds-checked, a
  RangeError on an out-of-bounds read) becomes `getU8/getU16/getU32`
  returning `Option Nat`; a `none` propagates as `ZipError.outOfRange`;
- `new Uint8Array(buffer, start, len)` (bounds-checked view) becomes
  `slice?`;
- filenames are kept as raw byte lists; the source decodes them with
  TextDecoder and compares decoded strings, which agrees with byte
  equality on well-formed UTF-8 names;
- `new Date(year, monthIndex, day, hour, minute, second)` becomes the
  record `JsDate` of exactly the constructor arguments (a timezone-naive
  calendar timestamp; `month` is the 0-based month index as in the
  JavaScript constructor call, so the calendar month number is
  `month + 1`);
- the two stream shapes returned by extractFile (a stream of the raw
  slice for method 0, and the same stream piped through
  DecompressionStream with mode deflate-raw for method 8) become the two
  constructors of `ExtractOutput`, each carrying the compressed slice
  that feeds the stream;
- thrown errors become `ZipError`; `extractFile` returning `null` for a
  missing name becomes `ExtractResult.notFound`.
-/

deriving instance DecidableEq for Except

/-- Read one byte (models indexing into the DataView). -/
def getU8 (buf : List Nat) (i : Nat) : Option Nat := buf.get? i

/-- Little-endian 16-bit read, models DataView.getUint16(i, true). -/
def getU16 (buf : List Nat) (i : Nat) : Option Nat :=
  match getU8 buf i, getU8 buf (i + 1) with
  | some b0, some b1 => some (b0 + 256 * b1)
  | _, _ => none

/-- Little-endian 32-bit read, models DataView.getUint32(i, true). -/
def getU32 (buf : List Nat) (i : Nat) : Option Nat :=
  match getU8 buf i, getU8 buf (i + 1), getU8 buf (i + 2), getU8 buf (i + 3) with
  | some b0, some b1, some b2, some b3 =>
      some (b0 + 256 * b1 + 65536 * b2 + 16777216 * b3)
  | _, _, _, _ => none

/-- Bounds-checked byte-range view, models new Uint8Array(buffer, start, len). -/
def slice? (buf : List Nat) (start len : Nat) : Option (List Nat) :=
  if start + len ≤ buf.length then some ((buf.drop start).take len) else none

/-- The value of new Date(year, monthIndex, day, hour, minute, second):
a timezone-naive calendar timestamp recorded as the constructor arguments.
The field `month` is the 0-based month index of the JavaScript Date
constructor, so the calendar month number is `month + 1`. -/
structure JsDate where
  year : Int
  month : Int
  day : Int
  hour : Int
  minute : Int
  second : Int
deriving DecidableEq, Repr

/-- The ZipFileInfo record of src/zip.ts; `offset` is the local header
offset read from the central directory. Filenames are raw bytes. -/
structure ZipFileInfo where
  filename : List Nat
  encrypted : Bool
  compressedSize : Nat
  uncompressedSize : Nat
  compressionMethod : Nat
  crc32 : Nat
  lastModified : JsDate
  offset : Nat
deriving DecidableEq, Repr

/-- The errors the reader can throw: the two format-corruption messages
thrown as plain Error in the source, the unsupported-compression-method
Error carrying the numeric method code, and the RangeError a DataView or
Uint8Array raises on an out-of-bounds access. -/
inductive ZipError where
  | formatError (msg : String)
  | unsupportedMethod (method : Nat)
  | outOfRange
deriving DecidableEq, Repr

/-- The two stream shapes extractFile can return: for method 0 a stream
emitting the compressed slice verbatim, for method 8 the same stream
piped through DecompressionStream in deflate-raw mode. Each constructor
carries the compressed slice that feeds the stream. -/
inductive ExtractOutput where
  | stored (bytes : List Nat)
  | inflateRaw (compressed : List Nat)
deriving DecidableEq, Repr

/-- The compressed slice feeding the output stream. -/
def ExtractOutput.src : ExtractOutput → List Nat
  | .stored b => b
  | .inflateRaw b => b

/-- Result of a call to extractFile: null (no matching entry), a thrown
error, or a returned stream. -/
inductive ExtractResult where
  | notFound
  | fatal (e : ZipError)
  | ok (out : ExtractOutput)
deriving DecidableEq, Repr

/-- The ZipReader instance after construction: the backing buffer
(this.dataView) and the parsed entry list (this.files). -/
structure ZipReader where
  dataView : List Nat
  files : List ZipFileInfo
deriving DecidableEq, Repr

namespace ZipReader

/-- The dosDateTimeToDate method: unpack the 16-bit DOS date and time and
build the Date constructor arguments. Note the source passes the 0-based
month index ((dosDate >> 5) & 0x0f) - 1 to new Date. -/
def dosDateTimeToDate (dosDate dosTime : Nat) : JsDate :=
  { year := (((dosDate >>> 9) &&& 0x7f : Nat) : Int) + 1980
  , month := (((dosDate >>> 5) &&& 0x0f : Nat) : Int) - 1
  , day := ((dosDate &&& 0x1f : Nat) : Int)
  , hour := (((dosTime >>> 11) &&& 0x1f : Nat) : Int)
  , minute := (((dosTime >>> 5) &&& 0x3f : Nat) : Int)
  , second := (((dosTime &&& 0x1f) * 2 : Nat) : Int) }

/-- The field reads of parseCentralDirectoryEntry in source order, in the
Option monad (any out-of-bounds read aborts, as the DataView would). -/
def parseCDE? (buf : List Nat) (offset : Nat) : Option ZipFileInfo := do
  let _versionNeeded ← getU16 buf (offset + 6)
  let generalPurpose ← getU16 buf (offset + 8)
  let compressionMethod ← getU16 buf (offset + 10)
  let lastModTime ← getU16 buf (offset + 12)
  let lastModDate ← getU16 buf (offset + 14)
  let crc32 ← getU32 buf (offset + 16)
  let compressedSize ← getU32 buf (offset + 20)
  let uncompressedSize ← getU32 buf (offset + 24)
  let filenameLen ← getU16 buf (offset + 28)
  let localHeaderOffset ← getU32 buf (offset + 42)
  let filenameBytes ← slice? buf (offset + 46) filenameLen
  some
    { filename := filenameBytes
    , encrypted := (generalPurpose &&& 0x0001) != 0
    , compressedSize := compressedSize
    , uncompressedSize := uncompressedSize
    , compressionMethod := compressionMethod
    , crc32 := crc32
    , lastModified := dosDateTimeToDate lastModDate lastModTime
    , offset := localHeaderOffset }

/-- The parseCentralDirectoryEntry method; an out-of-bounds field read
surfaces as the RangeError the DataView throws. -/
def parseCentralDirectoryEntry (buf : List Nat) (offset : Nat) :
    Except ZipError ZipFileInfo :=
  match parseCDE? buf offset with
  | none => .error .outOfRange
  | some fi => .ok fi

/-- The central-directory walk of the parse method: repeat `n` times
(the declared entry count): check the entry signature, parse the record,
then advance by 46 plus the three variable-length field sizes. -/
def parseLoop (buf : List Nat) : Nat → Nat → Except ZipError (List ZipFileInfo)
  | 0, _ => .ok []
  | n + 1, offset =>
    match getU32 buf offset with
    | none => .error .outOfRange
    | some signature =>
      if signature ≠ 0x02014b50 then
        .error (.formatError "Invalid central directory signature")
      else
        match parseCentralDirectoryEntry buf offset with
        | .error e => .error e
        | .ok fi =>
          match getU16 buf (offset + 28), getU16 buf (offset + 30),
              getU16 buf (offset + 32) with
          | some filenameLen, some extraLen, some commentLen =>
            match parseLoop buf n (offset + 46 + filenameLen + extraLen + commentLen) with
            | .error e => .error e
            | .ok rest => .ok (fi :: rest)
          | _, _, _ => .error .outOfRange

/-- The body of the backward scan of findEOCD. The JavaScript loop runs
the index i from byteLength - 22 down to searchStart inclusive; here the
number of remaining iterations is passed as fuel, so exhausted fuel is
exactly the loop condition i >= searchStart turning false. -/
def findEOCDLoop (buf : List Nat) : Nat → Nat → Option Nat
  | _, 0 => none
  | i, fuel + 1 =>
    if getU32 buf i = some 0x06054b50 then some i
    else findEOCDLoop buf (i - 1) fuel

/-- The findEOCD method: backward scan for the trailer signature from
byteLength - 22 down to max(0, byteLength - 65535 - 22); on a buffer
shorter than 22 bytes the JavaScript loop starts below zero and never
runs, returning the not-found marker. -/
def findEOCD (buf : List Nat) : Option Nat :=
  if buf.length < 22 then none
  else
    findEOCDLoop buf (buf.length - 22)
      ((buf.length - 22) - (buf.length - 65535 - 22) + 1)

/-- The parse method run by the constructor: locate the trailer, read the
central directory size, offset and entry count, then walk the directory.
The central directory size is read (in source order) but unused. -/
def parse (buf : List Nat) : Except ZipError (List ZipFileInfo) :=
  match findEOCD buf with
  | none => .error (.formatError "Not a valid ZIP file: EOCD not found")
  | some eocdOffset =>
    match getU32 buf (eocdOffset + 12), getU32 buf (eocdOffset + 16),
        getU16 buf (eocdOffset + 10) with
    | some _centralDirSize, some centralDirOffset, some numEntries =>
        parseLoop buf numEntries centralDirOffset
    | _, _, _ => .error .outOfRange

/-- The constructor: run parse eagerly; on success the instance holds the
buffer and the fully populated entry list. -/
def construct (buf : List Nat) : Except ZipError ZipReader :=
  match parse buf with
  | .error e => .error e
  | .ok files => .ok ⟨buf, files⟩

/-- The getFiles method. -/
def getFiles (z : ZipReader) : List ZipFileInfo := z.files

/-- The per-entry tail of extractFile, after the lookup: re-read the
local file header at the entry offset, check its signature, read the
local filename and extra-field lengths, slice compressedSize bytes at
offset + 30 + filenameLen + extraLen, and dispatch on the compression
method. -/
def extractEntry (buf : List Nat) (fi : ZipFileInfo) : ExtractResult :=
  match getU32 buf fi.offset with
  | none => .fatal .outOfRange
  | some signature =>
    if signature ≠ 0x04034b50 then
      .fatal (.formatError "Invalid local file header signature")
    else
      match getU16 buf (fi.offset + 26) with
      | none => .fatal .outOfRange
      | some filenameLen =>
        match getU16 buf (fi.offset + 28) with
        | none => .fatal .outOfRange
        | some extraLen =>
          match slice? buf (fi.offset + 30 + filenameLen + extraLen) fi.compressedSize with
          | none => .fatal .outOfRange
          | some compressedData =>
            if fi.compressionMethod = 0 then .ok (.stored compressedData)
            else if fi.compressionMethod = 8 then .ok (.inflateRaw compressedData)
            else .fatal (.unsupportedMethod fi.compressionMethod)

/-- The extractFile method: linear search (Array.prototype.find) for the
first entry with the given filename, null when absent, else the header
re-read and dispatch of extractEntry. -/
def extractFile (z : ZipReader) (filename : List Nat) : ExtractResult :=
  match z.files.find? (fun f => f.filename == filename) with
  | none => .notFound
  | some fi => extractEntry z.dataView fi

/-- The extractFile method viewed as a transformer of the receiver
object: the method body of the source contains no assignment to
this.dataView or this.files and no store into the buffer, so the
resulting receiver is the receiver unchanged. -/
def extractFileS (z : ZipReader) (filename : List Nat) :
    ExtractResult × ZipReader :=
  (extractFile z filename, z)

end ZipReader

/-!
Concrete archives used to witness the theorems below. `zipA` is a
minimal well-formed one-entry archive: a local file header at offset 0
for the one-byte filename 0x61, a two-byte stored payload 0x58 0x59, a
central directory of one 47-byte record at offset 33, and the 22-byte
trailer at offset 80 (total 102 bytes). `encZipA` is the same archive
with bit 0 of the general-purpose flag in the central directory record
(absolute byte 41) set, marking the entry encrypted.
-/

/-- Minimal well-formed one-entry archive (see the section comment). -/
def zipA : List Nat :=
  [ 0x50, 0x4b, 0x03, 0x04,
    0, 0, 0, 0, 0, 0, 0, 0, 0, 0, 0, 0, 0, 0, 0, 0, 0, 0, 0, 0, 0, 0,
    1, 0,
    0, 0,
    0x61,
    0x58, 0x59,
    0x50, 0x4b, 0x01, 0x02,
    0, 0, 0, 0, 0, 0, 0, 0, 0, 0, 0, 0,
    0, 0, 0, 0,
    2, 0, 0, 0,
    2, 0, 0, 0,
    1, 0,
    0, 0,
    0, 0,
    0, 0, 0, 0, 0, 0, 0, 0,
    0, 0, 0, 0,
    0x61,
    0x50, 0x4b, 0x05, 0x06,
    0, 0, 0, 0, 0, 0,
    1, 0,
    0x2f, 0, 0, 0,
    0x21, 0, 0, 0,
    0, 0 ]

/-- The entry record parse produces for zipA. -/
def fiA : ZipFileInfo :=
  { filename := [0x61]
  , encrypted := false
  , compressedSize := 2
  , uncompressedSize := 2
  , compressionMethod := 0
  , crc32 := 0
  , lastModified := ⟨1980, -1, 0, 0, 0, 0⟩
  , offset := 0 }

/-- zipA with the encrypted bit of the central-directory record set. -/
def encZipA : List Nat := zipA.set 41 1

/-- The entry record parse produces for encZipA. -/
def encFiA : ZipFileInfo := { fiA with encrypted := true }

/-- The reader instance construct builds from zipA. -/
def zrA : ZipReader := ⟨zipA, [fiA]⟩

/-!
Helper lemmas about the embedded operations.
-/

/-- A successful backward scan returns the highest index in the scanned
range that carries the trailer signature. The scanned range is the fuel
many indices i, i - 1, ..., so membership is expressed as
i + 1 ≤ r + fuel together with r ≤ i. -/
lemma findEOCDLoop_some (buf : List Nat) :
    ∀ fuel i r, ZipReader.findEOCDLoop buf i fuel = some r →
      r ≤ i ∧ i + 1 ≤ r + fuel ∧ getU32 buf r = some 0x06054b50 ∧
      ∀ j, r < j → j ≤ i → getU32 buf j ≠ some 0x06054b50 := by
  intro fuel
  induction fuel with
  | zero => intro i r h; simp [ZipReader.findEOCDLoop] at h
  | succ n ih =>
    intro i r h
    rw [ZipReader.findEOCDLoop] at h
    by_cases hsig : getU32 buf i = some 0x06054b50
    · rw [if_pos hsig] at h
      obtain rfl : i = r := by simpa using h
      exact ⟨Nat.le_refl _, by omega, hsig, fun j hj1 hj2 => by omega⟩
    · rw [if_neg hsig] at h
      obtain ⟨h1, h2, h3, h4⟩ := ih (i - 1) r h
      refine ⟨by omega, by omega, h3, fun j hj1 hj2 => ?_⟩
      rcases Nat.lt_or_ge j i with hji | hji
      · exact h4 j hj1 (by omega)
      · have hje : j = i := by omega
        rw [hje]; exact hsig

/-- If the signature occurs nowhere in the scanned range, the scan
returns the not-found marker. -/
lemma findEOCDLoop_none (buf : List Nat) :
    ∀ fuel i, (∀ j, i + 1 ≤ j + fuel → j ≤ i → getU32 buf j ≠ some 0x06054b50) →
      ZipReader.findEOCDLoop buf i fuel = none := by
  intro fuel
  induction fuel with
  | zero => intro i _; rfl
  | succ n ih =>
    intro i h
    rw [ZipReader.findEOCDLoop]
    rw [if_neg (h i (by omega) (Nat.le_refl i))]
    exact ih (i - 1) (fun j hj1 hj2 => h j (by omega) (by omega))

/-- A successful directory walk produces exactly as many entries as the
requested count. -/
lemma parseLoop_length (buf : List Nat) :
    ∀ n offset l, ZipReader.parseLoop buf n offset = .ok l → l.length = n := by
  intro n
  induction n with
  | zero =>
    intro offset l h
    obtain rfl : ([] : List ZipFileInfo) = l := by simpa [ZipReader.parseLoop] using h
    rfl
  | succ n ih =>
    intro offset l h
    rw [ZipReader.parseLoop] at h
    split at h
    · simp at h
    · split at h
      · simp at h
      · split at h
        · simp at h
        · split at h
          · split at h
            · simp at h
            · rename_i rest hrec
              obtain rfl := Except.ok.inj h
              simp [ih _ rest hrec]
          · simp at h

/-- find? returns the first element satisfying the predicate. -/
lemma find?_first {α : Type} (p : α → Bool) :
    ∀ (l1 : List α) (e : α) (l2 : List α), p e = true →
      (∀ f ∈ l1, p f = false) →
      List.find? p (l1 ++ e :: l2) = some e := by
  intro l1
  induction l1 with
  | nil => intro e l2 hp _; simpa using List.find?_cons_of_pos l2 hp
  | cons a t ih =>
    intro e l2 hp hall
    have ha : p a = false := hall a (by simp)
    rw [List.cons_append, List.find?_cons_of_neg _ (by simp [ha])]
    exact ih e l2 hp (fun f hf => hall f (by simp [hf]))

/-- find? commutes with a map that does not change the predicate. -/
lemma find?_map_eq {α : Type} (p : α → Bool) (g : α → α)
    (hp : ∀ a, p (g a) = p a) :
    ∀ l : List α, List.find? p (l.map g) = (List.find? p l).map g := by
  intro l
  induction l with
  | nil => rfl
  | cons a t ih =>
    by_cases ha : p a = true
    · rw [List.map_cons, List.find?_cons_of_pos _ (by rw [hp]; exact ha),
        List.find?_cons_of_pos _ ha]
      rfl
    · rw [List.map_cons, List.find?_cons_of_neg _ (by rw [hp]; exact ha),
        List.find?_cons_of_neg _ ha, ih]

/-- extractFile is unchanged by a rewrite of the entry list that keeps
every filename and does not change how extractEntry treats each entry. -/
lemma extractFile_map_invariant (buf : List Nat) (files : List ZipFileInfo)
    (fn : List Nat) (g : ZipFileInfo → ZipFileInfo)
    (hname : ∀ f, (g f).filename = f.filename)
    (hext : ∀ f, ZipReader.extractEntry buf (g f) = ZipReader.extractEntry buf f) :
    ZipReader.extractFile ⟨buf, files.map g⟩ fn =
      ZipReader.extractFile ⟨buf, files⟩ fn := by
  unfold ZipReader.extractFile
  show (match List.find? (fun f => f.filename == fn) (files.map g) with
    | none => ExtractResult.notFound
    | some fi => ZipReader.extractEntry buf fi) = _
  rw [find?_map_eq _ g (fun a => by rw [hname])]
  cases List.find? (fun f => f.filename == fn) files with
  | none => rfl
  | some f => exact hext f

/-- With a valid local signature, readable local lengths and an in-range
slice, a stored entry extracts to the raw slice. -/
lemma extractEntry_stored (buf : List Nat) (fi : ZipFileInfo) (fl el : Nat)
    (data : List Nat)
    (hsig : getU32 buf fi.offset = some 0x04034b50)
    (hfl : getU16 buf (fi.offset + 26) = some fl)
    (hel : getU16 buf (fi.offset + 28) = some el)
    (hdata : slice? buf (fi.offset + 30 + fl + el) fi.compressedSize = some data)
    (hm : fi.compressionMethod = 0) :
    ZipReader.extractEntry buf fi = .ok (.stored data) := by
  simp [ZipReader.extractEntry, hsig, hfl, hel, hdata, hm]

/-- Under the same conditions, a method-8 entry extracts to the slice
piped through the raw-deflate decompressor. -/
lemma extractEntry_inflate (buf : List Nat) (fi : ZipFileInfo) (fl el : Nat)
    (data : List Nat)
    (hsig : getU32 buf fi.offset = some 0x04034b50)
    (hfl : getU16 buf (fi.offset + 26) = some fl)
    (hel : getU16 buf (fi.offset + 28) = some el)
    (hdata : slice? buf (fi.offset + 30 + fl + el) fi.compressedSize = some data)
    (hm : fi.compressionMethod = 8) :
    ZipReader.extractEntry buf fi = .ok (.inflateRaw data) := by
  simp [ZipReader.extractEntry, hsig, hfl, hel, hdata, hm]

/-- Under the same conditions, any other method fails with the
unsupported-method error naming the numeric code. -/
lemma extractEntry_unsupported (buf : List Nat) (fi : ZipFileInfo) (fl el : Nat)
    (data : List Nat)
    (hsig : getU32 buf fi.offset = some 0x04034b50)
    (hfl : getU16 buf (fi.offset + 26) = some fl)
    (hel : getU16 buf (fi.offset + 28) = some el)
    (hdata : slice? buf (fi.offset + 30 + fl + el) fi.compressedSize = some data)
    (hm0 : fi.compressionMethod ≠ 0) (hm8 : fi.compressionMethod ≠ 8) :
    ZipReader.extractEntry buf fi = .fatal (.unsupportedMethod fi.compressionMethod) := by
  simp [ZipReader.extractEntry, hsig, hfl, hel, hdata, hm0, hm8]

/-- extractEntry never reads the crc32, uncompressedSize, encrypted,
filename or lastModified fields of the entry: it is determined by the
offset, compressedSize and compressionMethod fields. -/
lemma extractEntry_fields (buf : List Nat) (fi : ZipFileInfo)
    (name : List Nat) (b : Bool) (u c : Nat) (d : JsDate) :
    ZipReader.extractEntry buf
      { fi with filename := name, encrypted := b, uncompressedSize := u,
                crc32 := c, lastModified := d } =
      ZipReader.extractEntry buf fi := rfl

/-!
The claim theorems.
-/

/-- C1: for an entry handed to extraction, the local file header at the
entry localHeaderOffset is re-read: a 4-byte signature other than
0x04034B50 there is a fatal format error; and whenever extraction
returns a stream, the signature there was 0x04034B50, the filename and
extra-field lengths were read from the local header itself (offsets +26
and +28 from the local header, not the central-directory copies kept in
the entry record), and the slice feeding the stream is exactly
compressedSize bytes starting at localHeaderOffset + 30 + filenameLen +
extraLen. -/
theorem c1_local_header_reread (buf : List Nat) (fi : ZipFileInfo) :
    (∀ s, getU32 buf fi.offset = some s → s ≠ 0x04034b50 →
      ZipReader.extractEntry buf fi =
        .fatal (.formatError "Invalid local file header signature"))
  ∧ (∀ out, ZipReader.extractEntry buf fi = .ok out →
      getU32 buf fi.offset = some 0x04034b50 ∧
      ∃ fl el, getU16 buf (fi.offset + 26) = some fl ∧
        getU16 buf (fi.offset + 28) = some el ∧
        fi.offset + 30 + fl + el + fi.compressedSize ≤ buf.length ∧
        out.src = (buf.drop (fi.offset + 30 + fl + el)).take fi.compressedSize ∧
        out.src.length = fi.compressedSize) := by
  constructor
  · intro s hs hne
    simp [ZipReader.extractEntry, hs, hne]
  · intro out h
    unfold ZipReader.extractEntry at h
    split at h
    · simp at h
    · rename_i signature hsig
      split at h
      · simp at h
      · rename_i hnn
        have hs : signature = 0x04034b50 := by omega
        subst hs
        split at h
        · simp at h
        · rename_i fl hfl
          split at h
          · simp at h
          · rename_i el hel
            split at h
            · simp at h
            · rename_i data hdata
              refine ⟨hsig, fl, el, hfl, hel, ?_⟩
              unfold slice? at hdata
              split at hdata
              · rename_i hb
                obtain rfl := Option.some.inj hdata
                have hout : out.src =
                    (buf.drop (fi.offset + 30 + fl + el)).take fi.compressedSize := by
                  split at h
                  · obtain rfl := ExtractResult.ok.inj h
                    rfl
                  · split at h
                    · obtain rfl := ExtractResult.ok.inj h
                      rfl
                    · simp at h
                refine ⟨hb, hout, ?_⟩
                rw [hout]
                simp [List.length_take, List.length_drop]
                omega
              · simp at hdata

/-- Witness for C1 on the concrete archive zipA: extraction of its one
stored entry returns a stream and the characterization holds there. -/
theorem c1_witness :
    getU32 zipA fiA.offset = some 0x04034b50 ∧
    ∃ fl el, getU16 zipA (fiA.offset + 26) = some fl ∧
      getU16 zipA (fiA.offset + 28) = some el ∧
      fiA.offset + 30 + fl + el + fiA.compressedSize ≤ zipA.length ∧
      (ExtractOutput.stored [0x58, 0x59]).src =
        (zipA.drop (fiA.offset + 30 + fl + el)).take fiA.compressedSize ∧
      (ExtractOutput.stored [0x58, 0x59]).src.length = fiA.compressedSize :=
  (c1_local_header_reread zipA fiA).2 (.stored [0x58, 0x59]) (by decide)

/-- C2: construction walks the central directory from the declared
offset, once per declared entry, checking the signature 0x02014B50 at
each record (a mismatch fails the whole construction with the
format error, with no resynchronization) and advancing by 46 plus the
three variable lengths (see parseLoop); consequently a successfully
constructed reader lists exactly the entry count declared at offset +10
of the found trailer. -/
theorem c2_entry_count (buf : List Nat) (z : ZipReader) :
    (ZipReader.construct buf = .ok z →
      ∃ e, ZipReader.findEOCD buf = some e ∧
        getU16 buf (e + 10) = some (ZipReader.getFiles z).length)
  ∧ (∀ n offset s, getU32 buf offset = some s → s ≠ 0x02014b50 →
      ZipReader.parseLoop buf (n + 1) offset =
        .error (.formatError "Invalid central directory signature")) := by
  constructor
  · intro h
    unfold ZipReader.construct at h
    split at h
    · simp at h
    · rename_i files hp
      obtain rfl := Except.ok.inj h
      unfold ZipReader.parse at hp
      split at hp
      · simp at hp
      · rename_i e hfind
        split at hp
        · rename_i centralDirOffset numEntries _ _ hnum
          refine ⟨e, hfind, ?_⟩
          have hl := parseLoop_length buf _ _ _ hp
          simpa [ZipReader.getFiles, hl] using hnum
        · simp at hp
  · intro n offset s hs hne
    rw [ZipReader.parseLoop, hs]
    simp [hne]

/-- Witness for C2 on zipA: construction succeeds and the listed length
1 is the count declared in the trailer at offset 80. -/
theorem c2_witness :
    ∃ e, ZipReader.findEOCD zipA = some e ∧
      getU16 zipA (e + 10) = some (ZipReader.getFiles zrA).length :=
  (c2_entry_count zipA zrA).1 (by decide)

/-- C3 counterexample: encZipA parses to one entry whose encrypted flag
is set (bit 0 of the general-purpose flag is 1), yet extraction of that
entry does not fail with any unsupported-entry error: it proceeds past
the local-header re-read and returns the stored stream. -/
theorem c3_counterexample :
    ZipReader.parse encZipA = .ok [encFiA] ∧
    encFiA.encrypted = true ∧
    ZipReader.extractFile ⟨encZipA, [encFiA]⟩ [0x61] =
      .ok (.stored [0x58, 0x59]) :=
  ⟨by decide, rfl, by decide⟩

/-- C3 amended: the encrypted flag is parsed from bit 0 of the
general-purpose flag and exposed in the entry metadata, but extractFile
never consults it: extraction behaves identically whatever the value of
the flag, so an encrypted entry is extracted (or fails) exactly as an
unencrypted one rather than failing with an UnsupportedError. -/
theorem c3_encrypted_ignored (z : ZipReader) (fn : List Nat) (b : Bool) :
    ZipReader.extractFile
        ⟨z.dataView, z.files.map (fun f => { f with encrypted := b })⟩ fn =
      ZipReader.extractFile z fn :=
  extractFile_map_invariant z.dataView z.files fn _
    (fun _ => rfl) (fun _ => rfl)

/-- C4: with the entry found, the local header signature valid, the two
local lengths readable and the compressed slice in range, extraction
dispatches on compressionMethod: method 0 returns the slice verbatim as
the stream, method 8 returns the slice piped through the raw-deflate
decompressor, and any other method -- and only such other values --
fails with the UnsupportedError naming the numeric method code. -/
theorem c4_method_dispatch (buf : List Nat) (fi : ZipFileInfo) (fl el : Nat)
    (data : List Nat)
    (hsig : getU32 buf fi.offset = some 0x04034b50)
    (hfl : getU16 buf (fi.offset + 26) = some fl)
    (hel : getU16 buf (fi.offset + 28) = some el)
    (hdata : slice? buf (fi.offset + 30 + fl + el) fi.compressedSize = some data) :
    (fi.compressionMethod = 0 →
      ZipReader.extractEntry buf fi = .ok (.stored data))
  ∧ (fi.compressionMethod = 8 →
      ZipReader.extractEntry buf fi = .ok (.inflateRaw data))
  ∧ (fi.compressionMethod ≠ 0 → fi.compressionMethod ≠ 8 →
      ZipReader.extractEntry buf fi =
        .fatal (.unsupportedMethod fi.compressionMethod)) :=
  ⟨fun hm => extractEntry_stored buf fi fl el data hsig hfl hel hdata hm,
   fun hm => extractEntry_inflate buf fi fl el data hsig hfl hel hdata hm,
   fun hm0 hm8 => extractEntry_unsupported buf fi fl el data hsig hfl hel hdata hm0 hm8⟩

/-- Witness for C4 on zipA: the stored entry, the same entry relabelled
method 8, and the same entry relabelled method 12. -/
theorem c4_witness :
    ZipReader.extractEntry zipA fiA = .ok (.stored [0x58, 0x59]) ∧
    ZipReader.extractEntry zipA { fiA with compressionMethod := 8 } =
      .ok (.inflateRaw [0x58, 0x59]) ∧
    ZipReader.extractEntry zipA { fiA with compressionMethod := 12 } =
      .fatal (.unsupportedMethod 12) :=
  ⟨(c4_method_dispatch zipA fiA 1 0 [0x58, 0x59]
      (by decide) (by decide) (by decide) (by decide)).1 rfl,
   (c4_method_dispatch zipA { fiA with compressionMethod := 8 } 1 0 [0x58, 0x59]
      (by decide) (by decide) (by decide) (by decide)).2.1 rfl,
   (c4_method_dispatch zipA { fiA with compressionMethod := 12 } 1 0 [0x58, 0x59]
      (by decide) (by decide) (by decide) (by decide)).2.2 (by decide) (by decide)⟩

/-- C5: a found trailer offset lies in the window from byteLength - 22
down to max(0, byteLength - 22 - 65535) (in truncated Nat arithmetic the
lower bound is the double subtraction), carries the little-endian
signature 0x06054B50, and is the highest-offset match in the window; and
if no offset of the window carries the signature (vacuously so for a
buffer shorter than 22 bytes) the parse run by construction fails with
the format error, so no partially filled reader is ever produced. -/
theorem c5_trailer_search (buf : List Nat) :
    (∀ i, ZipReader.findEOCD buf = some i →
      i + 22 ≤ buf.length ∧ buf.length - 22 - 65535 ≤ i ∧
      getU32 buf i = some 0x06054b50 ∧
      ∀ j, i < j → j + 22 ≤ buf.length → getU32 buf j ≠ some 0x06054b50)
  ∧ ((∀ j, buf.length - 22 - 65535 ≤ j → j + 22 ≤ buf.length →
        getU32 buf j ≠ some 0x06054b50) →
      ZipReader.construct buf =
        .error (.formatError "Not a valid ZIP file: EOCD not found")) := by
  constructor
  · intro i h
    unfold ZipReader.findEOCD at h
    split at h
    · simp at h
    · rename_i hlen
      obtain ⟨h1, h2, h3, h4⟩ := findEOCDLoop_some buf _ _ _ h
      refine ⟨by omega, by omega, h3, fun j hj1 hj2 => h4 j hj1 (by omega)⟩
  · intro hwin
    have hfind : ZipReader.findEOCD buf = none := by
      unfold ZipReader.findEOCD
      split
      · rfl
      · rename_i hlen
        exact findEOCDLoop_none buf _ _
          (fun j hj1 hj2 => hwin j (by omega) (by omega))
    unfold ZipReader.construct ZipReader.parse
    rw [hfind]

/-- Witness for C5: on zipA the trailer is found at offset 80 and the
characterization holds; on the empty buffer (shorter than 22 bytes, so
the window is empty) construction fails with the format error. -/
theorem c5_witness :
    (getU32 zipA 80 = some 0x06054b50 ∧
      ZipReader.construct ([] : List Nat) =
        .error (.formatError "Not a valid ZIP file: EOCD not found")) :=
  ⟨((c5_trailer_search zipA).1 80 (by decide)).2.2.1,
   (c5_trailer_search []).2 (fun j hj1 hj2 => by simp at hj2)⟩

/-- C6: extractFile resolves the name by linear search over the entry
list in central-directory order with exact (byte-for-byte, hence
case-sensitive full-path) filename equality: if no entry matches the
result is the not-found marker (never a thrown error), and if the list
splits as l1 ++ e :: l2 with no match in l1 and e matching, extraction
proceeds on e -- the first match wins under duplicated filenames. -/
theorem c6_first_match (z : ZipReader) (fn : List Nat) :
    ((∀ f ∈ z.files, f.filename ≠ fn) →
      ZipReader.extractFile z fn = .notFound)
  ∧ (∀ l1 e l2, z.files = l1 ++ e :: l2 → e.filename = fn →
      (∀ f ∈ l1, f.filename ≠ fn) →
      ZipReader.extractFile z fn = ZipReader.extractEntry z.dataView e) := by
  constructor
  · intro h
    unfold ZipReader.extractFile
    have hnone : z.files.find? (fun f => f.filename == fn) = none := by
      rw [List.find?_eq_none]
      intro x hx
      simpa using h x hx
    rw [hnone]
  · intro l1 e l2 hsplit he hl1
    unfold ZipReader.extractFile
    rw [hsplit, find?_first _ l1 e l2 (by simp [he])
      (fun f hf => by simpa using hl1 f hf)]

/-- Witness for C6 on zipA: a missing name yields notFound, and the one
matching entry is found as the first match of the trivial split. -/
theorem c6_witness :
    ZipReader.extractFile zrA [0x62] = .notFound ∧
    ZipReader.extractFile zrA [0x61] = ZipReader.extractEntry zrA.dataView fiA :=
  ⟨(c6_first_match zrA [0x62]).1 (by decide),
   (c6_first_match zrA [0x61]).2 [] fiA [] rfl rfl (by simp)⟩

/-- C7: the lastModified timestamp is rebuilt from the packed 16-bit DOS
date and time exactly as the claim states: year = bits 15 to 9 plus
1980, calendar month (the 0-based constructor index plus one) = bits 8
to 5, day = bits 4 to 0, hour = bits 15 to 11, minute = bits 10 to 5,
second = 2 times bits 4 to 0; the JsDate record is timezone-naive by
construction. -/
theorem c7_timestamp (dosDate dosTime : Nat) :
    (ZipReader.dosDateTimeToDate dosDate dosTime).year =
      ((((dosDate >>> 9) &&& 0x7f : Nat) : Int) + 1980) ∧
    (ZipReader.dosDateTimeToDate dosDate dosTime).month + 1 =
      (((dosDate >>> 5) &&& 0x0f : Nat) : Int) ∧
    (ZipReader.dosDateTimeToDate dosDate dosTime).day =
      ((dosDate &&& 0x1f : Nat) : Int) ∧
    (ZipReader.dosDateTimeToDate dosDate dosTime).hour =
      (((dosTime >>> 11) &&& 0x1f : Nat) : Int) ∧
    (ZipReader.dosDateTimeToDate dosDate dosTime).minute =
      (((dosTime >>> 5) &&& 0x3f : Nat) : Int) ∧
    (ZipReader.dosDateTimeToDate dosDate dosTime).second =
      2 * ((dosTime &&& 0x1f : Nat) : Int) := by
  refine ⟨rfl, ?_, rfl, rfl, rfl, ?_⟩
  · show (((dosDate >>> 5) &&& 0x0f : Nat) : Int) - 1 + 1 = _
    ring
  · show (((dosTime &&& 0x1f) * 2 : Nat) : Int) = _
    push_cast
    ring

/-- C8: extraction, modelled as a transformer of the receiver, leaves
the receiver (backing buffer and entry list) unchanged whatever its
outcome, so a later extraction of any name behaves exactly as on the
fresh archive, and repeating an extraction gives the same result; this
reflects that the source method body contains no write to this.dataView,
this.files or the buffer. -/
theorem c8_extract_pure (z : ZipReader) (fn fn2 : List Nat) :
    (ZipReader.extractFileS z fn).2 = z ∧
    ZipReader.extractFile (ZipReader.extractFileS z fn).2 fn2 =
      ZipReader.extractFile z fn2 ∧
    (ZipReader.extractFileS (ZipReader.extractFileS z fn).2 fn).1 =
      (ZipReader.extractFileS z fn).1 :=
  ⟨rfl, rfl, rfl⟩

/-- C9: the crc32 field is carried in the entry metadata but never
consulted by extraction: rewriting the stored crc32 of every entry to
arbitrary values changes neither the lookup nor the produced output, so
two archives differing only in an entry crc32 extract byte-identically. -/
theorem c9_crc_not_consulted (z : ZipReader) (fn : List Nat)
    (g : ZipFileInfo → Nat) :
    ZipReader.extractFile
        ⟨z.dataView, z.files.map (fun f => { f with crc32 := g f })⟩ fn =
      ZipReader.extractFile z fn :=
  extractFile_map_invariant z.dataView z.files fn _
    (fun _ => rfl) (fun _ => rfl)

/-- C10: for a stored (method 0) entry the produced byte sequence is the
slice of exactly compressedSize bytes -- its length equals the declared
compressedSize -- and the uncompressedSize field is never consulted:
changing it changes nothing about extraction. -/
theorem c10_stored_size (buf : List Nat) (fi : ZipFileInfo) (fl el : Nat)
    (data : List Nat)
    (hsig : getU32 buf fi.offset = some 0x04034b50)
    (hfl : getU16 buf (fi.offset + 26) = some fl)
    (hel : getU16 buf (fi.offset + 28) = some el)
    (hdata : slice? buf (fi.offset + 30 + fl + el) fi.compressedSize = some data)
    (hm : fi.compressionMethod = 0) :
    ZipReader.extractEntry buf fi = .ok (.stored data) ∧
    data.length = fi.compressedSize ∧
    ∀ u, ZipReader.extractEntry buf { fi with uncompressedSize := u } =
      ZipReader.extractEntry buf fi := by
  refine ⟨extractEntry_stored buf fi fl el data hsig hfl hel hdata hm, ?_,
    fun u => rfl⟩
  unfold slice? at hdata
  split at hdata
  · rename_i hb
    obtain rfl := Option.some.inj hdata
    simp [List.length_take, List.length_drop]
    omega
  · simp at hdata

/-- Witness for C10 on zipA: the stored entry extracts to its two
declared bytes, and altering uncompressedSize to 7 changes nothing. -/
theorem c10_witness :
    ZipReader.extractEntry zipA fiA = .ok (.stored [0x58, 0x59]) ∧
    [0x58, 0x59].length = fiA.compressedSize ∧
    ZipReader.extractEntry zipA { fiA with uncompressedSize := 7 } =
      ZipReader.extractEntry zipA fiA := by
  obtain ⟨h1, h2, h3⟩ := c10_stored_size zipA fiA 1 0 [0x58, 0x59]
    (by decide) (by decide) (by decide) (by decide) rfl
  exact ⟨h1, h2, h3 7⟩
